import Mathlib

/-!
# Verification of the make-my-trade backtesting engine

Shallow embedding of the backtesting core of the repository
(`src/strategies/donchian_strategy.py`, `src/strategies/sma_strategy.py`,
`src/strategies/sma_profit_strategy.py`, `src/strategies/ema_crossover_strategy.py`,
`src/backtest/backtester.py`) together with theorems settling the frozen
claims about it.

Modelling conventions:
* Python floats are modelled as exact rationals `ℚ`; a value that can be
  `NaN` in pandas (a not-yet-filled rolling window, a missing close) is
  modelled as `Option ℚ` with `none` for `NaN`.  pandas comparisons
  involving `NaN` evaluate to `False`, which the embedding mirrors by
  matching on `none`.
* DataFrame index values (timestamps) are modelled as integers `ℤ`,
  ordered as the rows are iterated.
* The per-strategy mutable instance state (`self.capital`,
  `self.positions`, ...) is modelled as explicit state records threaded
  through the loop in the iteration order of the source.
* The metric fields produced by float `**` and `sqrt` are idealized as
  real numbers; no theorem below evaluates those transcendental fields.
-/

/-! ## Rolling-window indicator helpers

`pandas.Series.rolling(window=W, min_periods=m).mean()` over a series of
defined values: the value at row `t` is the arithmetic mean of the trailing
window of the last `min (t+1) W` observations; it is defined at `t` iff the
number of available observations `min (t+1) W` is at least `m`.
`rollingMeanMinp1` is the `min_periods=1` variant (used by
`SMAStrategy.generate_signals` line 46 and by the trend/momentum SMAs of
`FilteredDonchianStrategy.generate_signals` lines 73 and 77);
`rollingMeanFull` is the default `min_periods=window` variant (used by
`SimpleMovingAverageProfitStrategy.generate_signals` lines 28-29 and 100-101). -/

def listMean (xs : List ℚ) : ℚ := xs.sum / xs.length

/-- The trailing window of observations pandas averages at row `t`:
the last `min (t+1) W` elements among the first `t+1` elements. -/
def windowAt (W : ℕ) (xs : List ℚ) (t : ℕ) : List ℚ :=
  (xs.take (t + 1)).drop (t + 1 - W)

/-- `rolling(window=W, min_periods=1).mean()`: defined at every row. -/
def rollingMeanMinp1 (W : ℕ) (xs : List ℚ) : List ℚ :=
  (List.range xs.length).map (fun t => listMean (windowAt W xs t))

/-- `rolling(window=W).mean()` (default `min_periods=window`):
`NaN` (here `none`) until the window has `W` observations. -/
def rollingMeanFull (W : ℕ) (xs : List ℚ) : List (Option ℚ) :=
  (List.range xs.length).map
    (fun t => if W ≤ t + 1 then some (listMean (windowAt W xs t)) else none)

/-- Value of the full-window rolling mean at row `t` (`none` = `NaN`). -/
def fullMAAt (W : ℕ) (xs : List ℚ) (t : ℕ) : Option ℚ :=
  (rollingMeanFull W xs).getD t none

/-- `ewm(span=S, adjust=False).mean()` recursion after the seed:
`e_t = α·c_t + (1−α)·e_{t−1}`. -/
def emaStep (a prev : ℚ) : List ℚ → List ℚ
  | [] => []
  | c :: cs =>
    let e := a * c + (1 - a) * prev
    e :: emaStep a e cs

/-- `ewm(span=S, adjust=False).mean()`: seeded from the first observation,
with smoothing factor `α = 2/(S+1)`. -/
def emaSeries (span : ℕ) : List ℚ → List ℚ
  | [] => []
  | c :: cs => c :: emaStep (2 / ((span : ℚ) + 1)) c cs

/-- Value of the EMA series at row `t` (defined at every row of the data). -/
def emaAt (span : ℕ) (xs : List ℚ) (t : ℕ) : Option ℚ :=
  (emaSeries span xs).get? t

/-! ## SimpleMovingAverageProfitStrategy.generate_signals (crossover, SMA)

`src/strategies/sma_profit_strategy.py` lines 26-40 (and the identical buy
rule of `SimpleMovingAverageProfitStrategy1`, lines 99-106):
`buy` at row `t` iff `short_ma[t] > long_ma[t]` and
`short_ma[t−1] <= long_ma[t−1]`; every comparison involving `NaN`
(window not yet filled, or `t = 0` after `shift(1)`) is `False`. -/

/-- The underlying crossover condition `short_ma > long_ma` at row `t`. -/
def SimpleMovingAverageProfitStrategy.maGT (sw lw : ℕ) (closes : List ℚ) (t : ℕ) : Bool :=
  match fullMAAt sw closes t, fullMAAt lw closes t with
  | some a, some b => decide (b < a)
  | _, _ => false

/-- The previous-row comparison `short_ma.shift(1) <= long_ma.shift(1)` at row `t`. -/
def SimpleMovingAverageProfitStrategy.maPrevLE (sw lw : ℕ) (closes : List ℚ) (t : ℕ) : Bool :=
  match t with
  | 0 => false
  | u + 1 =>
    match fullMAAt sw closes u, fullMAAt lw closes u with
    | some a, some b => decide (a ≤ b)
    | _, _ => false

/-- The buy signal of the SMA crossover generator. -/
def SimpleMovingAverageProfitStrategy.buySignal (sw lw : ℕ) (closes : List ℚ) (t : ℕ) : Bool :=
  SimpleMovingAverageProfitStrategy.maGT sw lw closes t
    && SimpleMovingAverageProfitStrategy.maPrevLE sw lw closes t

/-! ## EMAcrossoverStrategy.generate_signals (crossover, EMA)

`src/strategies/ema_crossover_strategy.py` lines 31-33:
`buy = (ema_short > ema_long) & (ema_short.shift(1) <= ema_long.shift(1))`,
then `fillna(False)` (the `shift(1)` comparison at row 0 is already `False`). -/

/-- The underlying crossover condition `ema_short > ema_long` at row `t`. -/
def EMAcrossoverStrategy.emaGT (s l : ℕ) (closes : List ℚ) (t : ℕ) : Bool :=
  match emaAt s closes t, emaAt l closes t with
  | some a, some b => decide (b < a)
  | _, _ => false

/-- The previous-row comparison `ema_short.shift(1) <= ema_long.shift(1)` at row `t`. -/
def EMAcrossoverStrategy.emaPrevLE (s l : ℕ) (closes : List ℚ) (t : ℕ) : Bool :=
  match t with
  | 0 => false
  | u + 1 =>
    match emaAt s closes u, emaAt l closes u with
    | some a, some b => decide (a ≤ b)
    | _, _ => false

/-- The buy signal of the EMA crossover generator. -/
def EMAcrossoverStrategy.buySignal (s l : ℕ) (closes : List ℚ) (t : ℕ) : Bool :=
  EMAcrossoverStrategy.emaGT s l closes t && EMAcrossoverStrategy.emaPrevLE s l closes t

/-! ## FilteredDonchianStrategy: positions, orders and the backtest loop

`src/strategies/donchian_strategy.py`.  The loop (lines 142-167) consumes,
for each row, the close/high/low of `historical_data` together with the
`buy`/`sell`/`atr` columns produced by `generate_signals`; a `DBar` bundles
that per-row input.  `atr` is `Option ℚ` because `handle_order` guards it
with `pd.isna` (line 93). -/

structure DBar where
  time : ℤ
  high : ℚ
  low : ℚ
  close : ℚ
  buy : Bool
  sell : Bool
  atr : Option ℚ

/-- A position dict as built by `handle_order` (lines 114-121). -/
structure DPosition where
  side : ℤ
  entry_price : ℚ
  stop_price : ℚ
  size : ℚ
  closed : Bool
  entry_time : ℤ

/-- A trade-log dict as built by `handle_order` (lines 125-134). -/
structure DTrade where
  time : ℤ
  side : ℤ
  price : ℚ
  size : ℚ
  stop_price : ℚ
  capital : ℚ

/-- The sizing/filter parameters of `FilteredDonchianStrategy.__init__`. -/
structure DConfig where
  risk_per_trade : ℚ
  stop_atr_mult : ℚ
  max_notional_per_position : ℚ
  min_notional : ℚ

/-- The mutable instance state consumed by the loop. -/
structure DState where
  capital : ℚ
  positions : List DPosition
  trade_log : List DTrade
  equity_curve : List (ℤ × ℚ)

/-- `signal = 1 if row["buy"] else (-1 if row["sell"] else 0)` (line 90). -/
def donchianSignal (bar : DBar) : ℤ :=
  if bar.buy then 1 else if bar.sell then -1 else 0

/-- Whether the stop check of lines 149 and 153 fires for position `p` on this bar:
a long whose stop the bar's low breaches, or a short whose stop the bar's high
breaches (only still-open positions are examined, line 147). -/
def stopHit (bar : DBar) (p : DPosition) : Bool :=
  !p.closed &&
    ((p.side == 1 && decide (bar.low ≤ p.stop_price))
      || (p.side == -1 && decide (p.stop_price ≤ bar.high)))

/-- Realized P&L credited when the stop check fires (lines 150 and 154), else 0. -/
def stopPnl (bar : DBar) (p : DPosition) : ℚ :=
  if stopHit bar p then
    if p.side = 1 then (p.stop_price - p.entry_price) * p.size
    else (p.entry_price - p.stop_price) * p.size
  else 0

/-- The position after the stop check: marked closed iff the check fired. -/
def applyStop (bar : DBar) (p : DPosition) : DPosition :=
  if stopHit bar p then { p with closed := true } else p

/-- The stop-evaluation pass over all positions (lines 146-156): each open
position is checked against the bar, realized P&L is credited to capital and
breached positions are marked closed. -/
def donchianCheckStops (s : DState) (bar : DBar) : DState :=
  { s with
    capital := s.capital + (s.positions.map (stopPnl bar)).sum
    positions := s.positions.map (applyStop bar) }

/-- `any(p["side"] == side and not p["closed"] for p in self.positions)`. -/
def hasOpen (ps : List DPosition) (side : ℤ) : Bool :=
  ps.any (fun p => p.side == side && !p.closed)

/-- `FilteredDonchianStrategy.handle_order` (lines 89-134): guard against a
missing/zero ATR and a zero signal, reject a second open position on the same
side, size the order from risk and ATR, skip a too-small notional, clamp an
oversized notional, then append the new position and its trade-log record. -/
def FilteredDonchianStrategy.handle_order (cfg : DConfig) (s : DState) (bar : DBar) : DState :=
  let signal := donchianSignal bar
  match bar.atr with
  | none => s
  | some atr =>
    if signal = 0 ∨ atr = 0 then s
    else if hasOpen s.positions signal then s
    else
      let current_price := bar.close
      let stop_distance := cfg.stop_atr_mult * atr
      let stop_price :=
        if signal = 1 then current_price - stop_distance else current_price + stop_distance
      let dollar_risk := s.capital * cfg.risk_per_trade
      let size0 := dollar_risk / stop_distance
      let notional := size0 * current_price
      if notional < cfg.min_notional then s
      else
        let size :=
          if s.capital * cfg.max_notional_per_position < notional then
            s.capital * cfg.max_notional_per_position / current_price
          else size0
        { s with
          positions :=
            s.positions ++ [⟨signal, current_price, stop_price, size, false, bar.time⟩]
          trade_log :=
            s.trade_log ++ [⟨bar.time, signal, current_price, size, stop_price, s.capital⟩] }

/-- The per-bar unrealized P&L sum of lines 162-166. -/
def donchianUnrealized (price : ℚ) (ps : List DPosition) : ℚ :=
  ((ps.filter (fun p => !p.closed)).map
    (fun p =>
      if p.side = 1 then (price - p.entry_price) * p.size
      else (p.entry_price - price) * p.size)).sum

/-- One iteration of the loop of `FilteredDonchianStrategy.backtest`
(lines 142-167): stop evaluation, then `handle_order`, then the equity
point `capital + unrealized` appended for this bar. -/
def FilteredDonchianStrategy.backtestStep (cfg : DConfig) (s : DState) (bar : DBar) : DState :=
  let s1 := donchianCheckStops s bar
  let s2 := FilteredDonchianStrategy.handle_order cfg s1 bar
  { s2 with
    equity_curve :=
      s2.equity_curve ++ [(bar.time, s2.capital + donchianUnrealized bar.close s2.positions)] }

/-- The instance state right after `__init__`. -/
def donchianInit (initial_capital : ℚ) : DState :=
  ⟨initial_capital, [], [], []⟩

/-- `FilteredDonchianStrategy.backtest`: fold the loop over the rows. -/
def FilteredDonchianStrategy.backtest (cfg : DConfig) (initial_capital : ℚ)
    (bars : List DBar) : DState :=
  bars.foldl (FilteredDonchianStrategy.backtestStep cfg) (donchianInit initial_capital)

/-- Every state reached during a run: the initial state and the state after
each processed bar. -/
def donchianStates (cfg : DConfig) (initial_capital : ℚ) (bars : List DBar) : List DState :=
  List.scanl (FilteredDonchianStrategy.backtestStep cfg) (donchianInit initial_capital) bars

/-- Number of non-closed positions on one side. -/
def countOpen (s : DState) (side : ℤ) : ℕ :=
  (s.positions.filter (fun p => p.side == side && !p.closed)).length

/-! ## SimpleMovingAverageProfitStrategy: handle_order and the backtest loop

`src/strategies/sma_profit_strategy.py` lines 45-77.  The loop consumes rows
`(timestamp, close, signal)` produced by `generate_signals`; a row's close is
`none` when the close price is `NaN` — the loop then skips the row entirely
(lines 68-70), appending no equity point. -/

inductive SPSignal
  | buy
  | sell

structure SPRow where
  time : ℤ
  close : Option ℚ
  signal : Option SPSignal

structure SPTrade where
  time : ℤ
  side : SPSignal
  price : ℚ

structure SPState where
  capital : ℚ
  position : ℕ
  entry_price : ℚ
  trade_log : List SPTrade
  equity_curve : List (ℤ × ℚ)

/-- `SimpleMovingAverageProfitStrategy.handle_order` (lines 45-57): a buy
enters a unit position and debits cash; a sell exits only when the position
exists and is profitable, crediting cash. -/
def SimpleMovingAverageProfitStrategy.handle_order (s : SPState) (current_price : ℚ)
    (signal : Option SPSignal) (time : ℤ) : SPState :=
  match signal with
  | some .buy =>
    if s.position = 0 then
      { s with
        position := 1
        entry_price := current_price
        capital := s.capital - current_price
        trade_log := s.trade_log ++ [⟨time, .buy, current_price⟩] }
    else s
  | some .sell =>
    if 0 < s.position ∧ s.entry_price < current_price then
      { s with
        position := 0
        capital := s.capital + current_price
        entry_price := 0
        trade_log := s.trade_log ++ [⟨time, .sell, current_price⟩] }
    else s
  | none => s

/-- One iteration of the loop of `SimpleMovingAverageProfitStrategy.backtest`
(lines 67-74): rows with a `NaN` close are skipped outright; otherwise
`handle_order` runs and the equity point `capital + position·close` is
appended. -/
def SimpleMovingAverageProfitStrategy.backtestStep (s : SPState) (row : SPRow) : SPState :=
  match row.close with
  | none => s
  | some c =>
    let s1 := SimpleMovingAverageProfitStrategy.handle_order s c row.signal row.time
    { s1 with equity_curve := s1.equity_curve ++ [(row.time, s1.capital + s1.position * c)] }

/-- `SimpleMovingAverageProfitStrategy.backtest`: fold the loop over the rows,
starting from the `__init__` state with the given initial capital. -/
def SimpleMovingAverageProfitStrategy.backtest (initial_capital : ℚ)
    (rows : List SPRow) : SPState :=
  rows.foldl SimpleMovingAverageProfitStrategy.backtestStep ⟨initial_capital, 0, 0, [], []⟩

/-! ## SMAStrategy: signals, backtest loop and metrics

`src/strategies/sma_strategy.py`. -/

/-- One OHLC row as consumed by `SMAStrategy` (open/volume are coerced by the
source but never read). -/
structure SBar where
  time : ℤ
  low : ℚ
  high : ℚ
  close : ℚ

/-- The constructor parameters of `SMAStrategy.__init__` (the percentage is
stored raw; the source divides it by 100). -/
structure SMACfg where
  sma_period : ℕ
  balance_investment_pct : ℚ
  profit_threshold : ℚ

/-- The signal column of `SMAStrategy.generate_signals` (lines 46-65):
`1` when `low > SMA` and the shifted `low < SMA` comparison held on the
previous row (`False` on row 0 where the shift is `NaN`), else `-1` when
`high < SMA`, else `0`.  The SMA uses `min_periods=1`, so it is defined on
every row. -/
def SMAStrategy.signalAt (period : ℕ) (bars : List SBar) (t : ℕ) : ℤ :=
  let sma := rollingMeanMinp1 period (bars.map (fun b => b.close))
  let smaAt := fun u => sma.getD u 0
  let lowAt := fun u => (bars.map (fun b => b.low)).getD u 0
  let highAt := fun u => (bars.map (fun b => b.high)).getD u 0
  let wasBelow : Bool :=
    match t with
    | 0 => false
    | u + 1 => decide (lowAt u < smaAt u)
  if smaAt t < lowAt t ∧ wasBelow then 1
  else if highAt t < smaAt t then -1
  else 0

inductive SMATradeKind
  | buy (cost : ℚ)
  | sell (revenue profit profit_pct : ℚ)

/-- A trade dict as appended by the loop (lines 165-172 and 182-191). -/
structure SMATrade where
  time : ℤ
  kind : SMATradeKind
  price : ℚ
  volume : ℚ
  balance : ℚ

structure SMARunState where
  balance : ℚ
  position : ℚ
  entry_price : ℚ
  trades : List SMATrade
  equity_curve : List (ℤ × ℚ)

/-- One iteration of the loop of `SMAStrategy.backtest` (lines 144-193):
the equity point is appended first (lines 148-155), then a buy enters when
flat (lines 158-172), then a sell exits — only if the profit threshold is
met (lines 174-193). -/
def SMAStrategy.backtestStep (cfg : SMACfg) (s : SMARunState) (bar : SBar)
    (signal : ℤ) : SMARunState :=
  let current_equity :=
    if 0 < s.position then s.balance + s.position * bar.close else s.balance
  let s := { s with equity_curve := s.equity_curve ++ [(bar.time, current_equity)] }
  if signal = 1 ∧ s.position = 0 then
    let volume := s.balance * (cfg.balance_investment_pct / 100) / bar.close
    let cost := volume * bar.close
    { s with
      position := volume
      entry_price := bar.close
      balance := s.balance - cost
      trades := s.trades ++ [⟨bar.time, .buy cost, bar.close, volume, s.balance - cost⟩] }
  else if 0 < s.position ∧ signal = -1 then
    let profit_pct := (bar.close - s.entry_price) / s.entry_price
    if cfg.profit_threshold ≤ profit_pct then
      let revenue := s.position * bar.close
      let realized := revenue - s.position * s.entry_price
      { s with
        position := 0
        balance := s.balance + revenue
        trades :=
          s.trades ++
            [⟨bar.time, .sell revenue realized profit_pct, bar.close, s.position,
              s.balance + revenue⟩] }
    else s
  else s

/-- Cash balance plus unrealized P&L of the open position at a price — the
equity formula of lines 149-151. -/
def smaEquityOf (s : SMARunState) (price : ℚ) : ℚ :=
  if 0 < s.position then s.balance + s.position * price else s.balance

/-- The loop of `SMAStrategy.backtest`: the starting balance is the literal
`10000` (line 138); the `Backtester`'s `initial_capital` is never consulted. -/
def SMAStrategy.runLoop (cfg : SMACfg) (bars : List SBar) : SMARunState :=
  let sigs := (List.range bars.length).map (SMAStrategy.signalAt cfg.sma_period bars)
  (bars.zip sigs).foldl (fun s p => SMAStrategy.backtestStep cfg s p.1 p.2)
    ⟨10000, 0, 0, [], []⟩

/-- `equity_df['equity'].pct_change().dropna()` for a series of defined
values: the leading `NaN` is dropped, leaving `e[i]/e[i-1] − 1`. -/
def pctChange (xs : List ℚ) : List ℚ :=
  (xs.zip xs.tail).map (fun p => p.2 / p.1 - 1)

/-- The fixed-key metrics record of `SMAStrategy._calculate_metrics`; the
fields fed by float `**`/`sqrt` are idealized as reals. -/
structure SMAMetrics where
  final_capital : ℝ
  cagr : ℝ
  sharpe : ℝ
  max_drawdown : ℝ
  avg_trades_per_day : ℝ
  avg_trades_per_month : ℝ

/-- Running maximum (`expanding(min_periods=1).max()`) continuation. -/
def runningMaxAcc (cur : ℚ) : List ℚ → List ℚ
  | [] => []
  | b :: bs => (max cur b) :: runningMaxAcc (max cur b) bs

/-- `trades_df['balance'].expanding(min_periods=1).max()`. -/
def runningMax : List ℚ → List ℚ
  | [] => []
  | b :: bs => b :: runningMaxAcc b bs

/-- `((balance − peak)/peak).min()` over the trade balances. -/
def drawdownMin (balances : List ℚ) : ℚ :=
  match (balances.zip (runningMax balances)).map (fun p => (p.1 - p.2) / p.2) with
  | [] => 0
  | d :: ds => ds.foldl min d

/-- `SMAStrategy._calculate_metrics` (lines 209-257).  An empty trade ledger
returns the all-zero record with `final_capital` equal to the `10000` the run
started from, touching nothing else.  Otherwise: CAGR from the day span of the
ledger, Sharpe from the daily returns (population standard deviation, `ε`
regularizer `1e-10`, risk-free rate `0.02`), max drawdown from the running
peak of the balances, and the two trade-frequency averages. -/
noncomputable def SMAStrategy.calculate_metrics (trades : List SMATrade)
    (daily_returns : List ℚ) : SMAMetrics :=
  match trades with
  | [] => ⟨10000, 0, 0, 0, 0, 0⟩
  | t0 :: rest =>
    let last := (t0 :: rest).getLast (by simp)
    let final_capital : ℚ := last.balance
    let total_days : ℤ := last.time - t0.time
    let years : ℝ := (total_days : ℝ) / (36525 / 100)
    let cagr : ℝ :=
      if 0 < years then Real.rpow ((final_capital : ℝ) / 10000) (1 / years) - 1 else 0
    let rf : ℝ := 2 / 100
    let sharpe : ℝ :=
      if daily_returns.length ≠ 0 then
        let avg : ℝ := ((daily_returns.sum : ℝ)) / daily_returns.length
        let sd : ℝ :=
          Real.sqrt (((daily_returns.map (fun x => ((x : ℝ) - avg) ^ 2)).sum) /
            daily_returns.length)
        ((avg - rf / 252) / (sd + 1 / 10 ^ 10)) * Real.sqrt 252
      else 0
    let balances := (t0 :: rest).map (fun tr => tr.balance)
    let num_trades : ℕ := (t0 :: rest).length
    let total_months : ℝ := (total_days : ℝ) / (3044 / 100)
    ⟨(final_capital : ℝ), cagr, sharpe, (drawdownMin balances : ℝ),
      if 0 < total_days then (num_trades : ℝ) / (total_days : ℝ) else 0,
      if 0 < total_months then (num_trades : ℝ) / total_months else 0⟩

/-- `SMAStrategy.backtest` (lines 111-207): run the loop, then reduce the
trade ledger and the percent-changed equity series to the metrics record. -/
noncomputable def SMAStrategy.backtest (cfg : SMACfg) (bars : List SBar) : SMAMetrics :=
  let st := SMAStrategy.runLoop cfg bars
  SMAStrategy.calculate_metrics st.trades (pctChange (st.equity_curve.map (fun p => p.2)))

/-! ## Backtester orchestrator

`src/backtest/backtester.py`.  `__init__` stores `strategy`, `data` and
`initial_capital`; `run` delegates to `strategy.backtest(self.data)` when the
strategy has one (the generic fallback `_generic_backtest` is a `pass`
returning `None`), logs, and re-raises any exception after logging it. -/

/-- The two logging calls of `Backtester.run`. -/
inductive LogEntry (ε : Type u)
  | completed
  | failed (e : ε)

/-- A strategy as `Backtester.run` sees it: whether `hasattr(strategy,
"backtest")` holds, and the outcome of calling the run path — a normal
result or a raised exception. -/
structure PyStrategy (ε ρ : Type u) where
  hasBacktest : Bool
  backtestResult : Except ε ρ

/-- `Backtester.run` (lines 11-21): pick the strategy path or the generic
fallback (which returns `None`), log success and return the result, or log
the failure and re-raise the same exception. -/
def Backtester.run {ε ρ : Type u} (s : PyStrategy ε ρ) :
    List (LogEntry ε) × Except ε (Option ρ) :=
  let attempt : Except ε (Option ρ) :=
    if s.hasBacktest then s.backtestResult.map some else Except.ok none
  match attempt with
  | .ok r => ([.completed], .ok r)
  | .error e => ([.failed e], .error e)

/-- A `Backtester` bound to an `SMAStrategy` configuration. -/
structure BacktesterSMA where
  strategy : SMACfg
  data : List SBar
  initial_capital : ℚ

/-- `Backtester.run` on an `SMAStrategy`: the strategy has a `backtest`
attribute, so `run` returns `self.strategy.backtest(self.data)`;
`self.initial_capital` is stored by `__init__` but never read. -/
noncomputable def BacktesterSMA.run (b : BacktesterSMA) : SMAMetrics :=
  SMAStrategy.backtest b.strategy b.data

/-! ## Theorems -/

/-- C6: with an empty trade ledger, `SMAStrategy._calculate_metrics` returns,
for every daily-returns series, exactly the record with `final_capital` equal
to the `10000` of initial capital the run starts from and all five statistics
zero; all six fields are present and finite, and the computation involves no
division at all, so it cannot raise. -/
theorem calculate_metrics_empty_ledger (daily_returns : List ℚ) :
    SMAStrategy.calculate_metrics [] daily_returns =
      ⟨10000, 0, 0, 0, 0, 0⟩ := rfl

/-- C9: if the run path invoked by `Backtester.run` raises, `run` logs the
failure and re-raises that same exception to its caller; it never converts the
abnormal termination into a normal result. -/
theorem backtester_run_reraises {ε ρ : Type} (s : PyStrategy ε ρ) (e : ε)
    (hb : s.hasBacktest = true) (he : s.backtestResult = Except.error e) :
    Backtester.run s = ([LogEntry.failed e], Except.error e) := by
  simp [Backtester.run, hb, he, Except.map]

theorem backtester_run_reraises_witness :
    Backtester.run (⟨true, Except.error 7⟩ : PyStrategy ℕ ℕ) =
      ([LogEntry.failed 7], Except.error 7) :=
  backtester_run_reraises ⟨true, Except.error 7⟩ 7 rfl rfl

/-- C5: `FilteredDonchianStrategy.handle_order` skips the entry atomically —
the state (positions, trade log, cash balance) is returned unchanged — when
the bar's ATR is `NaN` or zero, and likewise when the computed notional
`size × price` is below `min_notional`. -/
theorem handle_order_skips_unsizable (cfg : DConfig) (s : DState) (bar : DBar) :
    ((bar.atr = none ∨ bar.atr = some 0) →
      FilteredDonchianStrategy.handle_order cfg s bar = s) ∧
    (∀ a : ℚ, bar.atr = some a →
      s.capital * cfg.risk_per_trade / (cfg.stop_atr_mult * a) * bar.close <
        cfg.min_notional →
      FilteredDonchianStrategy.handle_order cfg s bar = s) := by
  constructor
  · rintro (h | h) <;> simp [FilteredDonchianStrategy.handle_order, h]
  · intro a ha hlt
    simp only [FilteredDonchianStrategy.handle_order, ha]
    split_ifs with h1 h2
    · rfl
    · rfl
    · rfl

theorem handle_order_skips_unsizable_witness :
    ((FilteredDonchianStrategy.handle_order ⟨1/100, 2, 1/10, 10⟩
        (donchianInit 10000) ⟨0, 55, 45, 50, true, false, none⟩) =
      donchianInit 10000) ∧
    ((FilteredDonchianStrategy.handle_order ⟨1/100, 2, 1/10, 10⟩
        (donchianInit 1) ⟨0, 55, 45, 50, true, false, some 5⟩) =
      donchianInit 1) := by
  constructor
  · exact (handle_order_skips_unsizable _ _ _).1 (Or.inl rfl)
  · exact (handle_order_skips_unsizable _ _ _).2 5 rfl (by norm_num [donchianInit])

/-- Helper: on an accepted entry, `handle_order` appends exactly the position
and trade-log record built from the risk-based size, clamped when the
notional exceeds the `max_notional_per_position` fraction of capital. -/
theorem handle_order_accepted (cfg : DConfig) (s : DState) (bar : DBar) (a : ℚ)
    (ha : bar.atr = some a) (ha0 : a ≠ 0) (hsig : donchianSignal bar ≠ 0)
    (hcap : hasOpen s.positions (donchianSignal bar) = false)
    (hmin : ¬ s.capital * cfg.risk_per_trade / (cfg.stop_atr_mult * a) * bar.close <
      cfg.min_notional) :
    FilteredDonchianStrategy.handle_order cfg s bar =
      (let signal := donchianSignal bar
       let stop_distance := cfg.stop_atr_mult * a
       let stop_price :=
         if signal = 1 then bar.close - stop_distance else bar.close + stop_distance
       let size0 := s.capital * cfg.risk_per_trade / stop_distance
       let size :=
         if s.capital * cfg.max_notional_per_position < size0 * bar.close then
           s.capital * cfg.max_notional_per_position / bar.close
         else size0
       { s with
         positions := s.positions ++ [⟨signal, bar.close, stop_price, size, false, bar.time⟩]
         trade_log :=
           s.trade_log ++ [⟨bar.time, signal, bar.close, size, stop_price, s.capital⟩] }) := by
  simp only [FilteredDonchianStrategy.handle_order, ha]
  rw [if_neg (by simp [hsig, ha0]), if_neg (by simp [hcap]), if_neg hmin]

/-- C4: for every accepted entry, the recorded size is
`(capital × risk_per_trade) / (stop_atr_mult × ATR)`, except that when that
size times the price exceeds `max_notional_per_position × capital` it is
clamped to `(max_notional_per_position × capital) / price`; the same
(possibly clamped) size appears in both the recorded position and the
recorded trade. -/
theorem entry_sizing (cfg : DConfig) (s : DState) (bar : DBar) (a : ℚ)
    (ha : bar.atr = some a) (ha0 : a ≠ 0) (hsig : donchianSignal bar ≠ 0)
    (hcap : hasOpen s.positions (donchianSignal bar) = false)
    (hmin : ¬ s.capital * cfg.risk_per_trade / (cfg.stop_atr_mult * a) * bar.close <
      cfg.min_notional) :
    (let size0 := s.capital * cfg.risk_per_trade / (cfg.stop_atr_mult * a)
     let size :=
       if s.capital * cfg.max_notional_per_position < size0 * bar.close then
         s.capital * cfg.max_notional_per_position / bar.close
       else size0
     let stop_price :=
       if donchianSignal bar = 1 then bar.close - cfg.stop_atr_mult * a
       else bar.close + cfg.stop_atr_mult * a
     (FilteredDonchianStrategy.handle_order cfg s bar).positions =
        s.positions ++ [⟨donchianSignal bar, bar.close, stop_price, size, false, bar.time⟩] ∧
      (FilteredDonchianStrategy.handle_order cfg s bar).trade_log =
        s.trade_log ++
          [⟨bar.time, donchianSignal bar, bar.close, size, stop_price, s.capital⟩]) := by
  rw [handle_order_accepted cfg s bar a ha ha0 hsig hcap hmin]
  exact ⟨rfl, rfl⟩

/-- C4 witness, the sizing scenario of the spec: capital 10000,
`risk_per_trade = 0.01`, `stop_atr_mult = 2`, ATR 5, price 50 — stop distance
10, dollar risk 100, size 10 units, notional 500 within the 0.10 cap of 1000,
so the recorded position and trade both carry size 10. -/
theorem entry_sizing_witness :
    (FilteredDonchianStrategy.handle_order ⟨1/100, 2, 1/10, 10⟩
        (donchianInit 10000) ⟨0, 55, 45, 50, true, false, some 5⟩).positions =
      [⟨1, 50, 40, 10, false, 0⟩] ∧
    (FilteredDonchianStrategy.handle_order ⟨1/100, 2, 1/10, 10⟩
        (donchianInit 10000) ⟨0, 55, 45, 50, true, false, some 5⟩).trade_log =
      [⟨0, 1, 50, 10, 40, 10000⟩] := by
  have h := entry_sizing ⟨1/100, 2, 1/10, 10⟩ (donchianInit 10000)
    ⟨0, 55, 45, 50, true, false, some 5⟩ 5 rfl (by norm_num)
    (by norm_num [donchianSignal]) rfl (by norm_num [donchianInit])
  simp only [donchianInit, donchianSignal, if_true] at h
  obtain ⟨h1, h2⟩ := h
  simp only [donchianInit]
  rw [h1, h2]
  norm_num

/-- Helper: filtering after a map that only falsifies the predicate cannot
lengthen the filtered list. -/
theorem length_filter_map_le {α : Type} (f : α → α) (pred : α → Bool)
    (h : ∀ x, pred (f x) = true → pred x = true) (l : List α) :
    (List.filter pred (l.map f)).length ≤ (List.filter pred l).length := by
  induction l with
  | nil => simp
  | cons x xs ih =>
    simp only [List.map_cons, List.filter_cons]
    by_cases hfx : pred (f x) = true
    · rw [if_pos hfx, if_pos (h x hfx)]
      simp only [List.length_cons]
      omega
    · rw [if_neg hfx]
      by_cases hx : pred x = true
      · rw [if_pos hx]
        simp only [List.length_cons]
        omega
      · rw [if_neg hx]
        exact ih

/-- Helper: stop evaluation only ever closes positions, so it cannot increase
the number of open positions on either side. -/
theorem countOpen_checkStops_le (s : DState) (bar : DBar) (side : ℤ) :
    countOpen (donchianCheckStops s bar) side ≤ countOpen s side := by
  refine length_filter_map_le (applyStop bar) _ ?_ s.positions
  intro p hp
  by_cases hhit : stopHit bar p = true
  · rw [applyStop, if_pos hhit] at hp
    simp at hp
  · rwa [applyStop, if_neg hhit] at hp

/-- Helper: appending one open position on a side that currently has no open
position keeps the per-side open count at most one, whatever the other fields
of the new position are. -/
theorem countOpen_pos_append (ps : List DPosition) (sig side : ℤ) (ep sp sz : ℚ) (tm : ℤ)
    (hno : hasOpen ps sig = false)
    (h : (List.filter (fun p => p.side == side && !p.closed) ps).length ≤ 1) :
    (List.filter (fun p => p.side == side && !p.closed)
        (ps ++ [⟨sig, ep, sp, sz, false, tm⟩])).length ≤ 1 := by
  rw [List.filter_append, List.length_append]
  by_cases hside : sig = side
  · subst hside
    have hzero : (List.filter (fun p => p.side == sig && !p.closed) ps).length = 0 := by
      rw [List.length_eq_zero, List.filter_eq_nil_iff]
      intro p hp hcontra
      have hany : List.any ps (fun p => p.side == sig && !p.closed) = true :=
        List.any_eq_true.mpr ⟨p, hp, hcontra⟩
      rw [hasOpen] at hno
      rw [hno] at hany
      exact Bool.false_ne_true hany
    rw [hzero]
    simp
  · have hnew : (List.filter (fun p : DPosition => p.side == side && !p.closed)
        [⟨sig, ep, sp, sz, false, tm⟩]).length = 0 := by
      simp [hside]
    rw [hnew]
    omega

/-- Helper: `handle_order` preserves the one-open-position-per-side bound —
it only appends a position on a side that had no open position. -/
theorem countOpen_handle_order (cfg : DConfig) (s : DState) (bar : DBar) (side : ℤ)
    (h : countOpen s side ≤ 1) :
    countOpen (FilteredDonchianStrategy.handle_order cfg s bar) side ≤ 1 := by
  unfold FilteredDonchianStrategy.handle_order
  cases hatr : bar.atr with
  | none => exact h
  | some a =>
    simp only []
    by_cases h1 : donchianSignal bar = 0 ∨ a = 0
    · rw [if_pos h1]
      exact h
    · rw [if_neg h1]
      by_cases h2 : hasOpen s.positions (donchianSignal bar) = true
      · rw [if_pos h2]
        exact h
      · rw [if_neg h2]
        by_cases h3 : s.capital * cfg.risk_per_trade / (cfg.stop_atr_mult * a) * bar.close <
            cfg.min_notional
        · rw [if_pos h3]
          exact h
        · rw [if_neg h3]
          unfold countOpen at h ⊢
          exact countOpen_pos_append s.positions (donchianSignal bar) side _ _ _ _
            (by simpa using h2) h

/-- Helper: one whole loop iteration preserves the per-side open-position
bound. -/
theorem backtestStep_countOpen (cfg : DConfig) (s : DState) (bar : DBar) (side : ℤ)
    (h : countOpen s side ≤ 1) :
    countOpen (FilteredDonchianStrategy.backtestStep cfg s bar) side ≤ 1 :=
  countOpen_handle_order cfg (donchianCheckStops s bar) bar side
    (le_trans (countOpen_checkStops_le s bar side) h)

/-- Helper: an invariant preserved by the step holds at every state `scanl`
produces. -/
theorem scanl_all {α σ : Type} (f : σ → α → σ) (P : σ → Prop)
    (hstep : ∀ s a, P s → P (f s a)) :
    ∀ (l : List α) (s0 : σ), P s0 → ∀ s ∈ List.scanl f s0 l, P s := by
  intro l
  induction l with
  | nil =>
    intro s0 h0 s hs
    simp only [List.scanl_nil, List.mem_singleton] at hs
    rwa [hs]
  | cons a t ih =>
    intro s0 h0 s hs
    simp only [List.scanl_cons, List.singleton_append, List.mem_cons] at hs
    rcases hs with rfl | hs
    · exact h0
    · exact ih (f s0 a) (hstep s0 a h0) s hs

/-- C2: at every point of a `FilteredDonchianStrategy` run the number of
non-closed positions per side is at most one, and an entry signal in a
direction that already has a non-closed position is rejected — `handle_order`
leaves the state (positions, trades, capital) entirely unchanged. -/
theorem capacity_rule (cfg : DConfig) (initial_capital : ℚ) (bars : List DBar) :
    (∀ s ∈ donchianStates cfg initial_capital bars,
        countOpen s 1 ≤ 1 ∧ countOpen s (-1) ≤ 1) ∧
    (∀ (s : DState) (bar : DBar),
        hasOpen s.positions (donchianSignal bar) = true →
        FilteredDonchianStrategy.handle_order cfg s bar = s) := by
  constructor
  · exact scanl_all (FilteredDonchianStrategy.backtestStep cfg)
      (fun s => countOpen s 1 ≤ 1 ∧ countOpen s (-1) ≤ 1)
      (fun s bar h =>
        ⟨backtestStep_countOpen cfg s bar 1 h.1, backtestStep_countOpen cfg s bar (-1) h.2⟩)
      bars (donchianInit initial_capital)
      ⟨by simp [countOpen, donchianInit], by simp [countOpen, donchianInit]⟩
  · intro s bar hopen
    unfold FilteredDonchianStrategy.handle_order
    cases hatr : bar.atr with
    | none => rfl
    | some a =>
      simp only []
      split_ifs with h1 <;> rfl

/-- C2 witness: the empty run's only state has at most one open position per
side, and a buy signal arriving while a long is already open leaves the
state unchanged. -/
theorem capacity_rule_witness :
    (countOpen (donchianInit 10000) 1 ≤ 1 ∧ countOpen (donchianInit 10000) (-1) ≤ 1) ∧
    FilteredDonchianStrategy.handle_order ⟨1/100, 2, 1/10, 10⟩
        ⟨10000, [⟨1, 100, 90, 10, false, 0⟩], [], []⟩
        ⟨1, 130, 95, 120, true, false, some 5⟩ =
      ⟨10000, [⟨1, 100, 90, 10, false, 0⟩], [], []⟩ := by
  constructor
  · exact (capacity_rule ⟨1/100, 2, 1/10, 10⟩ 10000 []).1 (donchianInit 10000)
      (by simp [donchianStates])
  · exact (capacity_rule ⟨1/100, 2, 1/10, 10⟩ 10000 []).2
      ⟨10000, [⟨1, 100, 90, 10, false, 0⟩], [], []⟩
      ⟨1, 130, 95, 120, true, false, some 5⟩
      (by simp [hasOpen, donchianSignal])

/-- Helper: `handle_order` never touches the equity curve. -/
theorem handle_order_equity_curve (cfg : DConfig) (s : DState) (bar : DBar) :
    (FilteredDonchianStrategy.handle_order cfg s bar).equity_curve = s.equity_curve := by
  unfold FilteredDonchianStrategy.handle_order
  cases bar.atr with
  | none => rfl
  | some a =>
    simp only []
    split_ifs <;> rfl

/-- Helper: each loop iteration appends exactly one equity point, stamped
with the bar's timestamp. -/
theorem backtestStep_equity_time (cfg : DConfig) (s : DState) (bar : DBar) :
    (FilteredDonchianStrategy.backtestStep cfg s bar).equity_curve.map Prod.fst =
      s.equity_curve.map Prod.fst ++ [bar.time] := by
  unfold FilteredDonchianStrategy.backtestStep
  simp only [List.map_append]
  rw [handle_order_equity_curve]
  rfl

/-- Helper: folding the loop appends the bar timestamps, in order, to the
equity curve's timestamps. -/
theorem donchian_foldl_equity (cfg : DConfig) :
    ∀ (bars : List DBar) (s : DState),
      ((bars.foldl (FilteredDonchianStrategy.backtestStep cfg) s).equity_curve).map Prod.fst =
        s.equity_curve.map Prod.fst ++ bars.map (fun b => b.time) := by
  intro bars
  induction bars with
  | nil => simp
  | cons b t ih =>
    intro s
    simp only [List.foldl_cons, List.map_cons]
    rw [ih, backtestStep_equity_time]
    simp

/-- Helper: `SimpleMovingAverageProfitStrategy.handle_order` never touches
the equity curve. -/
theorem sp_handle_order_equity_curve (s : SPState) (c : ℚ) (sig : Option SPSignal) (tm : ℤ) :
    (SimpleMovingAverageProfitStrategy.handle_order s c sig tm).equity_curve =
      s.equity_curve := by
  unfold SimpleMovingAverageProfitStrategy.handle_order
  cases sig with
  | none => rfl
  | some k =>
    cases k <;> simp only [] <;> split_ifs <;> rfl

/-- Helper: on a row with a defined close, the loop iteration of
`SimpleMovingAverageProfitStrategy.backtest` appends exactly one equity
point, stamped with the row's timestamp. -/
theorem sp_backtestStep_equity_time (s : SPState) (row : SPRow) (hc : row.close ≠ none) :
    (SimpleMovingAverageProfitStrategy.backtestStep s row).equity_curve.map Prod.fst =
      s.equity_curve.map Prod.fst ++ [row.time] := by
  unfold SimpleMovingAverageProfitStrategy.backtestStep
  cases hcl : row.close with
  | none => exact absurd hcl hc
  | some c =>
    simp only [List.map_append]
    rw [sp_handle_order_equity_curve]
    rfl

/-- Helper: folding the `SimpleMovingAverageProfitStrategy` loop over rows
with defined closes appends the row timestamps, in order. -/
theorem sp_foldl_equity :
    ∀ (rows : List SPRow) (s : SPState), (∀ r ∈ rows, r.close ≠ none) →
      ((rows.foldl SimpleMovingAverageProfitStrategy.backtestStep s).equity_curve).map
          Prod.fst =
        s.equity_curve.map Prod.fst ++ rows.map (fun r => r.time) := by
  intro rows
  induction rows with
  | nil => simp
  | cons r t ih =>
    intro s hall
    simp only [List.foldl_cons, List.map_cons]
    rw [ih _ (fun x hx => hall x (List.mem_cons_of_mem r hx)),
      sp_backtestStep_equity_time s r (hall r (List.mem_cons_self r t))]
    simp

/-- C3 (amended): the `FilteredDonchianStrategy` run emits exactly one equity
point per input bar, carrying the bars' timestamps in input order; the
`SimpleMovingAverageProfitStrategy` run does the same for every input whose
closes are all defined (its loop skips a bar whose close is `NaN`, appending
no equity point for it — see the counterexample). -/
theorem equity_curve_one_point_per_bar (cfg : DConfig) (c0 : ℚ) (bars : List DBar)
    (initial : ℚ) (rows : List SPRow) (hrows : ∀ r ∈ rows, r.close ≠ none) :
    ((FilteredDonchianStrategy.backtest cfg c0 bars).equity_curve.map Prod.fst =
        bars.map (fun b => b.time) ∧
      (FilteredDonchianStrategy.backtest cfg c0 bars).equity_curve.length = bars.length) ∧
    ((SimpleMovingAverageProfitStrategy.backtest initial rows).equity_curve.map Prod.fst =
        rows.map (fun r => r.time) ∧
      (SimpleMovingAverageProfitStrategy.backtest initial rows).equity_curve.length =
        rows.length) := by
  have hd :
      (FilteredDonchianStrategy.backtest cfg c0 bars).equity_curve.map Prod.fst =
        bars.map (fun b => b.time) := by
    unfold FilteredDonchianStrategy.backtest
    rw [donchian_foldl_equity]
    simp [donchianInit]
  have hs :
      (SimpleMovingAverageProfitStrategy.backtest initial rows).equity_curve.map Prod.fst =
        rows.map (fun r => r.time) := by
    unfold SimpleMovingAverageProfitStrategy.backtest
    rw [sp_foldl_equity rows _ hrows]
    simp
  refine ⟨⟨hd, ?_⟩, hs, ?_⟩
  · have := congrArg List.length hd
    simpa using this
  · have := congrArg List.length hs
    simpa using this

/-- C3 counterexample: on the one-bar input whose close is `NaN`, the
`SimpleMovingAverageProfitStrategy` loop skips the bar, so the returned
equity trajectory has 0 points, not one point per input bar. -/
theorem equity_curve_one_point_per_bar_cex :
    ¬ ((SimpleMovingAverageProfitStrategy.backtest 10000
          [⟨0, none, none⟩]).equity_curve.length =
        ([⟨0, none, none⟩] : List SPRow).length) := by
  simp [SimpleMovingAverageProfitStrategy.backtest,
    SimpleMovingAverageProfitStrategy.backtestStep]

/-- C3 witness: a one-bar donchian run and a one-row (defined-close) run each
produce exactly one equity point carrying the bar's timestamp. -/
theorem equity_curve_one_point_per_bar_witness :
    ((FilteredDonchianStrategy.backtest ⟨1/100, 2, 1/10, 10⟩ 10000
        [⟨5, 12, 8, 10, false, false, some 1⟩]).equity_curve.map Prod.fst = [(5 : ℤ)] ∧
      (FilteredDonchianStrategy.backtest ⟨1/100, 2, 1/10, 10⟩ 10000
        [⟨5, 12, 8, 10, false, false, some 1⟩]).equity_curve.length = 1) ∧
    ((SimpleMovingAverageProfitStrategy.backtest 10000 [⟨3, some 10, none⟩]).equity_curve.map
        Prod.fst = [(3 : ℤ)] ∧
      (SimpleMovingAverageProfitStrategy.backtest 10000
        [⟨3, some 10, none⟩]).equity_curve.length = 1) := by
  simpa using equity_curve_one_point_per_bar ⟨1/100, 2, 1/10, 10⟩ 10000
    [⟨5, 12, 8, 10, false, false, some 1⟩] 10000 [⟨3, some 10, none⟩]
    (by intro r hr; simp only [List.mem_singleton] at hr; subst hr; simp)


/-- Helper: the `SMAStrategy` loop iteration appends exactly one equity
point, valued by the equity formula on the pre-bar state. -/
theorem sma_backtestStep_equity (cfg : SMACfg) (st : SMARunState) (bar : SBar) (sig : ℤ) :
    (SMAStrategy.backtestStep cfg st bar sig).equity_curve =
      st.equity_curve ++ [(bar.time, smaEquityOf st bar.close)] := by
  unfold SMAStrategy.backtestStep smaEquityOf
  dsimp only
  split_ifs <;> rfl

/-- Helper: one `SMAStrategy` loop iteration does not change the equity
value at the bar's close — a buy debits exactly the notional it acquires and
a sell credits exactly the notional it releases — so the equity point the
loop records before entry evaluation coincides with the equity of the state
after it. -/
theorem sma_step_equity_value (cfg : SMACfg) (st : SMARunState) (bar : SBar) (sig : ℤ)
    (hbal : 0 ≤ st.balance) (hpct : 0 ≤ cfg.balance_investment_pct)
    (hcl : 0 < bar.close) :
    smaEquityOf (SMAStrategy.backtestStep cfg st bar sig) bar.close =
      smaEquityOf st bar.close := by
  have hvol : 0 ≤ st.balance * (cfg.balance_investment_pct / 100) / bar.close :=
    div_nonneg (mul_nonneg hbal (div_nonneg hpct (by norm_num))) (le_of_lt hcl)
  unfold SMAStrategy.backtestStep smaEquityOf
  dsimp only
  by_cases h1 : sig = 1 ∧ st.position = 0
  · rw [if_pos h1]
    dsimp only
    rw [h1.2, if_neg (lt_irrefl (0 : ℚ))]
    rcases lt_or_eq_of_le hvol with hv | hv
    · rw [if_pos hv]
      ring
    · rw [if_neg (by rw [← hv]; exact lt_irrefl 0), ← hv]
      ring
  · rw [if_neg h1]
    by_cases h2 : 0 < st.position ∧ sig = -1
    · rw [if_pos h2]
      by_cases h3 : cfg.profit_threshold ≤ (bar.close - st.entry_price) / st.entry_price
      · rw [if_pos h3]
        dsimp only
        rw [if_neg (lt_irrefl (0 : ℚ)), if_pos h2.1]
      · rw [if_neg h3]
    · rw [if_neg h2]

/-- Helper: after stop evaluation of a bar that breaches every open long's
stop, no long position remains open, so a fresh long entry passes the
capacity check. -/
theorem hasOpen_after_stops (s : DState) (bar : DBar)
    (hBreach : ∀ p ∈ s.positions, p.side = 1 → p.closed = false → bar.low ≤ p.stop_price) :
    hasOpen (s.positions.map (applyStop bar)) 1 = false := by
  rw [hasOpen, List.any_map, List.any_eq_false]
  intro p hp
  by_cases hhit : stopHit bar p = true
  · simp [Function.comp, applyStop, hhit]
  · rw [Function.comp_apply, applyStop, if_neg hhit]
    intro hcontra
    simp only [Bool.and_eq_true, beq_iff_eq, Bool.not_eq_true'] at hcontra
    exact hhit (by simp [stopHit, hcontra.1, hcontra.2, hBreach p hp hcontra.1 hcontra.2])

/-- C1: per-bar order of effects.  For the `FilteredDonchianStrategy` loop,
a bar that breaches every open long's stop while its signal requests a new
long entry produces exactly: the stop closes applied first (realized P&L
credited to capital, positions marked closed), then the entry evaluated
against that post-stop state (the capacity check sees the longs already
closed, and the new trade's capital snapshot and sizing already contain the
stop P&L), then the equity point `capital + unrealized` computed from the
post-entry state and appended.  For the `SMAStrategy` loop, the equity point
appended for a bar likewise equals cash balance plus unrealized P&L of the
state after that bar's entry evaluation. -/
theorem stop_eval_precedes_entry_eval (cfg : DConfig) (s : DState) (bar : DBar) (a : ℚ)
    (hb : bar.buy = true) (ha : bar.atr = some a) (ha0 : a ≠ 0)
    (hBreach : ∀ p ∈ s.positions, p.side = 1 → p.closed = false → bar.low ≤ p.stop_price)
    (hmin : ¬ (s.capital + (s.positions.map (stopPnl bar)).sum) * cfg.risk_per_trade /
        (cfg.stop_atr_mult * a) * bar.close < cfg.min_notional)
    (cfg2 : SMACfg) (st : SMARunState) (sbar : SBar) (sig : ℤ)
    (hbal : 0 ≤ st.balance) (hpct : 0 ≤ cfg2.balance_investment_pct)
    (hcl : 0 < sbar.close) :
    (FilteredDonchianStrategy.backtestStep cfg s bar =
      (let cap1 := s.capital + (s.positions.map (stopPnl bar)).sum
       let ps1 := s.positions.map (applyStop bar)
       let size0 := cap1 * cfg.risk_per_trade / (cfg.stop_atr_mult * a)
       let size :=
         if cap1 * cfg.max_notional_per_position < size0 * bar.close then
           cap1 * cfg.max_notional_per_position / bar.close
         else size0
       let newPos : DPosition :=
         ⟨1, bar.close, bar.close - cfg.stop_atr_mult * a, size, false, bar.time⟩
       ⟨cap1, ps1 ++ [newPos],
        s.trade_log ++
          [⟨bar.time, 1, bar.close, size, bar.close - cfg.stop_atr_mult * a, cap1⟩],
        s.equity_curve ++
          [(bar.time, cap1 + donchianUnrealized bar.close (ps1 ++ [newPos]))]⟩)) ∧
    ((SMAStrategy.backtestStep cfg2 st sbar sig).equity_curve =
      st.equity_curve ++ [(sbar.time,
        smaEquityOf (SMAStrategy.backtestStep cfg2 st sbar sig) sbar.close)]) := by
  constructor
  · have hsig : donchianSignal bar = 1 := by simp [donchianSignal, hb]
    have hcap : hasOpen (donchianCheckStops s bar).positions (donchianSignal bar) = false := by
      rw [hsig]
      exact hasOpen_after_stops s bar hBreach
    unfold FilteredDonchianStrategy.backtestStep
    dsimp only
    rw [handle_order_accepted cfg (donchianCheckStops s bar) bar a ha ha0
      (by rw [hsig]; exact one_ne_zero) hcap hmin]
    dsimp only [donchianCheckStops]
    rw [hsig]
    simp only [if_pos]
  · rw [sma_step_equity_value cfg2 st sbar sig hbal hpct hcl]
    exact sma_backtestStep_equity cfg2 st sbar sig

/-- C1 witness: a bar (low 85) breaches the open long's stop (90) while its
buy signal fires.  The step closes the old position, credits the −100 stop
P&L (capital 9900), sizes the new entry from the post-stop capital (clamped
to 990/120 = 33/4), snapshots capital 9900 in the trade record, and appends
the post-entry equity 9900.  The `SMAStrategy` step on a buy bar appends the
post-entry equity 10000. -/
theorem stop_eval_precedes_entry_eval_witness :
    (FilteredDonchianStrategy.backtestStep ⟨1/100, 2, 1/10, 10⟩
        ⟨10000, [⟨1, 100, 90, 10, false, 0⟩], [], []⟩
        ⟨1, 130, 85, 120, true, false, some 5⟩ =
      ⟨9900, [⟨1, 100, 90, 10, true, 0⟩, ⟨1, 120, 110, 33/4, false, 1⟩],
        [⟨1, 1, 120, 33/4, 110, 9900⟩], [(1, 9900)]⟩) ∧
    ((SMAStrategy.backtestStep ⟨2, 80, 1/5⟩ ⟨10000, 0, 0, [], []⟩ ⟨0, 1, 1, 10⟩ 1).equity_curve =
      [((0 : ℤ), (10000 : ℚ))]) := by
  have hhit : stopHit ⟨1, 130, 85, 120, true, false, some 5⟩ ⟨1, 100, 90, 10, false, 0⟩
      = true := by
    unfold stopHit
    dsimp only
    rw [decide_eq_true (show (85 : ℚ) ≤ 90 by norm_num)]
    rfl
  have hpnl : stopPnl ⟨1, 130, 85, 120, true, false, some 5⟩ ⟨1, 100, 90, 10, false, 0⟩
      = -100 := by
    simp only [stopPnl, hhit, if_true]
    norm_num
  have h := stop_eval_precedes_entry_eval ⟨1/100, 2, 1/10, 10⟩
    ⟨10000, [⟨1, 100, 90, 10, false, 0⟩], [], []⟩
    ⟨1, 130, 85, 120, true, false, some 5⟩ 5
    rfl rfl (by norm_num)
    (by
      intro p hp h1 h2
      simp only [List.mem_singleton] at hp
      subst hp
      norm_num)
    (by
      simp only [List.map_cons, List.map_nil, hpnl, List.sum_cons, List.sum_nil]
      norm_num)
    ⟨2, 80, 1/5⟩ ⟨10000, 0, 0, [], []⟩ ⟨0, 1, 1, 10⟩ 1
    (by norm_num) (by norm_num) (by norm_num)
  obtain ⟨h1, h2⟩ := h
  constructor
  · rw [h1]
    simp only [List.map_cons, List.map_nil, hpnl, List.sum_cons, List.sum_nil,
      applyStop, hhit, if_true, donchianUnrealized]
    norm_num
  · rw [h2]
    simp only [SMAStrategy.backtestStep, smaEquityOf]
    norm_num

/-- Helper: folding the `SMAStrategy` loop only ever appends to the equity
curve. -/
theorem sma_foldl_equity_extends (cfg : SMACfg) :
    ∀ (l : List (SBar × ℤ)) (s : SMARunState),
      ∃ tl, (l.foldl (fun s p => SMAStrategy.backtestStep cfg s p.1 p.2) s).equity_curve =
        s.equity_curve ++ tl := by
  intro l
  induction l with
  | nil => exact fun s => ⟨[], by simp⟩
  | cons p t ih =>
    intro s
    obtain ⟨tl, htl⟩ := ih (SMAStrategy.backtestStep cfg s p.1 p.2)
    refine ⟨[(p.1.time, smaEquityOf s p.1.close)] ++ tl, ?_⟩
    simp only [List.foldl_cons]
    rw [htl, sma_backtestStep_equity]
    simp

/-- C10: the `Backtester`'s `initial_capital` parameter has no effect on an
`SMAStrategy` run — two backtesters over the same configuration and data but
different initial capitals return identical metrics, because
`SMAStrategy.backtest` starts its balance at the fixed 10000 (the first
recorded equity point of any non-empty run is exactly 10000) and
`Backtester.run` never passes `initial_capital` to the strategy. -/
theorem initial_capital_has_no_effect :
    (∀ (cfg : SMACfg) (data : List SBar) (c1 c2 : ℚ),
        BacktesterSMA.run ⟨cfg, data, c1⟩ = BacktesterSMA.run ⟨cfg, data, c2⟩) ∧
    (∀ (cfg : SMACfg) (bars : List SBar), bars ≠ [] →
        ((SMAStrategy.runLoop cfg bars).equity_curve.map Prod.snd).head? = some 10000) := by
  constructor
  · intro cfg data c1 c2
    rfl
  · intro cfg bars hne
    cases bars with
    | nil => exact absurd rfl hne
    | cons b bs =>
      unfold SMAStrategy.runLoop
      dsimp only
      rw [List.length_cons, List.range_succ_eq_map, List.map_cons, List.zip_cons_cons,
        List.foldl_cons]
      obtain ⟨tl, htl⟩ := sma_foldl_equity_extends cfg ((bs.zip
          (((List.range bs.length).map Nat.succ).map
            (SMAStrategy.signalAt cfg.sma_period (b :: bs)))))
        (SMAStrategy.backtestStep cfg ⟨10000, 0, 0, [], []⟩ b
          (SMAStrategy.signalAt cfg.sma_period (b :: bs) 0))
      rw [htl, sma_backtestStep_equity]
      simp [smaEquityOf]

/-- C10 witness: a concrete one-bar run returns the same metrics for initial
capitals 5 and 7, and its first equity point is 10000. -/
theorem initial_capital_has_no_effect_witness :
    BacktesterSMA.run ⟨⟨2, 80, 1/5⟩, [⟨0, 1, 1, 10⟩], 5⟩ =
      BacktesterSMA.run ⟨⟨2, 80, 1/5⟩, [⟨0, 1, 1, 10⟩], 7⟩ ∧
    ((SMAStrategy.runLoop ⟨2, 80, 1/5⟩ [⟨0, 1, 1, 10⟩]).equity_curve.map Prod.snd).head? =
      some 10000 :=
  ⟨initial_capital_has_no_effect.1 ⟨2, 80, 1/5⟩ [⟨0, 1, 1, 10⟩] 5 7,
    initial_capital_has_no_effect.2 ⟨2, 80, 1/5⟩ [⟨0, 1, 1, 10⟩] (by simp)⟩

/-- C7 (amended): both crossover generators emit a buy at `t` only if the
cross condition holds at `t` while the previous bar's comparison was a
defined `short ≤ long` — hence never at bar 0, never when the condition
already held on the previous bar (no duplicate buys while the condition
stays true).  On closes `[10, 11, 12, 9, 8]` with short/long parameters 2
and 3, the EMA crossover generator emits exactly one buy, at bar 1, the bar
where the short EMA first exceeds the long EMA; the SMA crossover generator
emits no buy at all, because its 3-period mean is still undefined (`NaN`) on
the bar before its only crossing, and pandas evaluates that comparison as
false. -/
theorem crossover_emits_single_buy :
    (∀ (sw lw : ℕ) (closes : List ℚ),
      SimpleMovingAverageProfitStrategy.buySignal sw lw closes 0 = false ∧
      ∀ u : ℕ,
        (SimpleMovingAverageProfitStrategy.buySignal sw lw closes (u + 1) = true →
          SimpleMovingAverageProfitStrategy.maGT sw lw closes (u + 1) = true ∧
          SimpleMovingAverageProfitStrategy.maGT sw lw closes u = false) ∧
        (SimpleMovingAverageProfitStrategy.maGT sw lw closes u = true →
          SimpleMovingAverageProfitStrategy.buySignal sw lw closes (u + 1) = false)) ∧
    (∀ (se le : ℕ) (closes : List ℚ),
      EMAcrossoverStrategy.buySignal se le closes 0 = false ∧
      ∀ u : ℕ,
        (EMAcrossoverStrategy.buySignal se le closes (u + 1) = true →
          EMAcrossoverStrategy.emaGT se le closes (u + 1) = true ∧
          EMAcrossoverStrategy.emaGT se le closes u = false) ∧
        (EMAcrossoverStrategy.emaGT se le closes u = true →
          EMAcrossoverStrategy.buySignal se le closes (u + 1) = false)) ∧
    ((List.range 5).filter (EMAcrossoverStrategy.buySignal 2 3 [(10 : ℚ), 11, 12, 9, 8])
        = [1] ∧
      EMAcrossoverStrategy.emaGT 2 3 [(10 : ℚ), 11, 12, 9, 8] 0 = false ∧
      EMAcrossoverStrategy.emaGT 2 3 [(10 : ℚ), 11, 12, 9, 8] 1 = true) ∧
    ((List.range 5).filter
        (SimpleMovingAverageProfitStrategy.buySignal 2 3 [(10 : ℚ), 11, 12, 9, 8]) = []) := by
  refine ⟨?_, ?_, ⟨?_, ?_, ?_⟩, ?_⟩
  · intro sw lw closes
    constructor
    · simp [SimpleMovingAverageProfitStrategy.buySignal,
        SimpleMovingAverageProfitStrategy.maPrevLE]
    · intro u
      constructor
      · intro h
        rw [SimpleMovingAverageProfitStrategy.buySignal, Bool.and_eq_true] at h
        obtain ⟨hgt, hprev⟩ := h
        refine ⟨hgt, ?_⟩
        rw [SimpleMovingAverageProfitStrategy.maPrevLE] at hprev
        rw [SimpleMovingAverageProfitStrategy.maGT]
        cases hsu : fullMAAt sw closes u with
        | none =>
          rw [hsu] at hprev
        | some x =>
          cases hlu : fullMAAt lw closes u with
          | none =>
            rw [hsu, hlu] at hprev
          | some y =>
            rw [hsu, hlu] at hprev
            simp only [decide_eq_true_eq] at hprev
            exact decide_eq_false (not_lt.mpr hprev)
      · intro hgt
        rw [SimpleMovingAverageProfitStrategy.buySignal]
        have hfalse : SimpleMovingAverageProfitStrategy.maPrevLE sw lw closes (u + 1)
            = false := by
          rw [SimpleMovingAverageProfitStrategy.maPrevLE]
          rw [SimpleMovingAverageProfitStrategy.maGT] at hgt
          cases hsu : fullMAAt sw closes u with
          | none =>
            rw [hsu] at hgt
          | some x =>
            cases hlu : fullMAAt lw closes u with
            | none =>
              rw [hsu, hlu] at hgt
            | some y =>
              rw [hsu, hlu] at hgt
              simp only [decide_eq_true_eq] at hgt
              exact decide_eq_false (not_le.mpr hgt)
        rw [hfalse, Bool.and_false]
  · intro se le closes
    constructor
    · simp [EMAcrossoverStrategy.buySignal, EMAcrossoverStrategy.emaPrevLE]
    · intro u
      constructor
      · intro h
        rw [EMAcrossoverStrategy.buySignal, Bool.and_eq_true] at h
        obtain ⟨hgt, hprev⟩ := h
        refine ⟨hgt, ?_⟩
        rw [EMAcrossoverStrategy.emaPrevLE] at hprev
        rw [EMAcrossoverStrategy.emaGT]
        cases hsu : emaAt se closes u with
        | none =>
          rw [hsu] at hprev
        | some x =>
          cases hlu : emaAt le closes u with
          | none =>
            rw [hsu, hlu] at hprev
          | some y =>
            rw [hsu, hlu] at hprev
            simp only [decide_eq_true_eq] at hprev
            exact decide_eq_false (not_lt.mpr hprev)
      · intro hgt
        rw [EMAcrossoverStrategy.buySignal]
        have hfalse : EMAcrossoverStrategy.emaPrevLE se le closes (u + 1) = false := by
          rw [EMAcrossoverStrategy.emaPrevLE]
          rw [EMAcrossoverStrategy.emaGT] at hgt
          cases hsu : emaAt se closes u with
          | none =>
            rw [hsu] at hgt
          | some x =>
            cases hlu : emaAt le closes u with
            | none =>
              rw [hsu, hlu] at hgt
            | some y =>
              rw [hsu, hlu] at hgt
              simp only [decide_eq_true_eq] at hgt
              exact decide_eq_false (not_le.mpr hgt)
        rw [hfalse, Bool.and_false]
  · norm_num [List.range_succ, EMAcrossoverStrategy.buySignal, EMAcrossoverStrategy.emaGT,
      EMAcrossoverStrategy.emaPrevLE, emaAt, emaSeries, emaStep, List.filter]
  · norm_num [EMAcrossoverStrategy.emaGT, emaAt, emaSeries, emaStep]
  · norm_num [EMAcrossoverStrategy.emaGT, emaAt, emaSeries, emaStep]
  · norm_num [List.range_succ, SimpleMovingAverageProfitStrategy.buySignal,
      SimpleMovingAverageProfitStrategy.maGT, SimpleMovingAverageProfitStrategy.maPrevLE,
      fullMAAt, rollingMeanFull, windowAt, listMean, List.filter]

/-- C7 counterexample: on closes `[10, 11, 12, 9, 8]` with a 2-period and a
3-period simple moving average, the SMA crossover generator of
`SimpleMovingAverageProfitStrategy` produces zero buy signals, not exactly
one: the 3-period mean is `NaN` at bar 1, so the previous-bar comparison at
the crossing bar 2 evaluates false and suppresses the signal. -/
theorem crossover_emits_single_buy_cex :
    ¬ (((List.range 5).filter
        (SimpleMovingAverageProfitStrategy.buySignal 2 3 [(10 : ℚ), 11, 12, 9, 8])).length
      = 1) := by
  norm_num [List.range_succ, SimpleMovingAverageProfitStrategy.buySignal,
    SimpleMovingAverageProfitStrategy.maGT, SimpleMovingAverageProfitStrategy.maPrevLE,
    fullMAAt, rollingMeanFull, windowAt, listMean, List.filter]

/-- C7 witness: at bar 1 of the EMA scenario the buy signal fires, and the
theorem yields that the cross condition holds at bar 1 and not at bar 0. -/
theorem crossover_emits_single_buy_witness :
    EMAcrossoverStrategy.buySignal 2 3 [(10 : ℚ), 11, 12, 9, 8] 1 = true ∧
    EMAcrossoverStrategy.emaGT 2 3 [(10 : ℚ), 11, 12, 9, 8] 1 = true ∧
    EMAcrossoverStrategy.emaGT 2 3 [(10 : ℚ), 11, 12, 9, 8] 0 = false := by
  have hbuy : EMAcrossoverStrategy.buySignal 2 3 [(10 : ℚ), 11, 12, 9, 8] 1 = true := by
    norm_num [EMAcrossoverStrategy.buySignal, EMAcrossoverStrategy.emaGT,
      EMAcrossoverStrategy.emaPrevLE, emaAt, emaSeries, emaStep]
  have h := ((crossover_emits_single_buy.2.1 2 3 [(10 : ℚ), 11, 12, 9, 8]).2 0).1 hbuy
  exact ⟨hbuy, h.1, h.2⟩

/-- C8 (amended): the `min_periods=1` simple moving average used by
`SMAStrategy` and by the trend/momentum filters of
`FilteredDonchianStrategy` is, at every bar `t`, the arithmetic mean of the
trailing window of the last `min (t+1) W` closes — averaging only the bars
available during the first `W−1` bars — and is defined (`some`) at every bar
of the data.  The moving averages of `SimpleMovingAverageProfitStrategy`,
however, use pandas' default `min_periods` and are undefined (`NaN`) for the
first `W−1` bars, equalling the full-window mean only from bar `W−1` on
(see the counterexample). -/
theorem sma_partial_window_policy (W : ℕ) (xs : List ℚ) (t : ℕ) (ht : t < xs.length) :
    ((rollingMeanMinp1 W xs).get? t = some (listMean (windowAt W xs t)) ∧
      (rollingMeanMinp1 W xs).length = xs.length ∧
      (windowAt W xs t).length = min (t + 1) W) ∧
    fullMAAt W xs t = if W ≤ t + 1 then some (listMean (windowAt W xs t)) else none := by
  refine ⟨⟨?_, ?_, ?_⟩, ?_⟩
  · rw [rollingMeanMinp1, List.get?_map, List.get?_range ht]
    rfl
  · simp [rollingMeanMinp1]
  · rw [windowAt, List.length_drop, List.length_take]
    omega
  · rw [fullMAAt, rollingMeanFull, List.getD_eq_getD_get?, List.get?_map,
      List.get?_range ht]
    rfl

/-- C8 counterexample: the moving-average series of
`SimpleMovingAverageProfitStrategy` (window 2, closes `[10, 11]`) is
undefined (`NaN`) at bar 0, even though the mean of the single available
close is 10 — refuting "never undefined at any bar" for that series. -/
theorem sma_partial_window_policy_cex :
    fullMAAt 2 [(10 : ℚ), 11] 0 = none ∧
    listMean (windowAt 2 [(10 : ℚ), 11] 0) = 10 := by
  constructor
  · rfl
  · norm_num [listMean, windowAt]

/-- C8 witness: window 3 over closes `[1, 2, 4]` at bar 1 — the partial
window holds the `min 2 3 = 2` available closes and averages them to `3/2`,
while the full-window series of the profit strategy is still undefined
there. -/
theorem sma_partial_window_policy_witness :
    ((rollingMeanMinp1 3 [(1 : ℚ), 2, 4]).get? 1 = some (3 / 2) ∧
      (rollingMeanMinp1 3 [(1 : ℚ), 2, 4]).length = 3 ∧
      (windowAt 3 [(1 : ℚ), 2, 4] 1).length = min 2 3) ∧
    fullMAAt 3 [(1 : ℚ), 2, 4] 1 = none := by
  have h := sma_partial_window_policy 3 [(1 : ℚ), 2, 4] 1 (by norm_num)
  refine ⟨⟨?_, h.1.2.1, h.1.2.2⟩, ?_⟩
  · rw [h.1.1]
    norm_num [listMean, windowAt]
  · rw [h.2]
    norm_num
